import Mathlib

/-!
Verification development for the `SitesCollector` subsystem of the
server-monitor-agent repository (site discovery, TLS/certificate
inspection, reachability probing and batch scheduling).

The TypeScript source is shallowly embedded: pure text processing
(the nginx config parser's regex scans) is modelled as executable
functions on `List Char`; JavaScript `Map`-based deduplication as an
association list with insertion-order semantics; the filesystem and
network as explicit state/outcome parameters; `Math.floor` on
millisecond timestamps as `Int.fdiv`.
-/

set_option autoImplicit false

/-! ## JavaScript character classes and string primitives -/

/-- JavaScript regex `\s` character class (whitespace, as used by
`trim`, `split(/\s+/)` and the `\s+` parts of the config regexes). -/
def jsWs (c : Char) : Bool :=
  c = ' ' || c = '\t' || c = '\n' || c = '\r' || c = '\x0b' || c = '\x0c' ||
  c.val = 0xa0 || c.val = 0x1680 || (0x2000 ≤ c.val && c.val ≤ 0x200a) ||
  c.val = 0x2028 || c.val = 0x2029 || c.val = 0x202f || c.val = 0x205f ||
  c.val = 0x3000 || c.val = 0xfeff

/-- JavaScript regex `[\d.]` character class (used in the optional
`ip:` prefix of a listen directive). -/
def isDigitDot (c : Char) : Bool :=
  c.isDigit || c = '.'

/-- Length of the maximal prefix of `l` whose characters satisfy `p`
(a greedy character-class run in a regex). -/
def runLen (p : Char → Bool) (l : List Char) : Nat :=
  (l.takeWhile p).length

/-- JavaScript `String.prototype.includes`: `pat` occurs as a
contiguous substring of `l`. -/
def hasSub (pat : List Char) : List Char → Bool
  | [] => pat == []
  | c :: cs => (c :: cs).take pat.length == pat || hasSub pat cs

/-- JavaScript `String.prototype.trim` (strip `\s` from both ends). -/
def trimJs (l : List Char) : List Char :=
  ((l.dropWhile jsWs).reverse.dropWhile jsWs).reverse

/-- Worker for `splitWs`: `cur` is the reversed current field; after a
whitespace run is entered (`splitWsGo true`-like state is encoded by
the caller), following `\s` characters extend the same separator. -/
def splitWsGo : Bool → List Char → List Char → List (List Char)
  | _, cur, [] => [cur.reverse]
  | inGap, cur, c :: cs =>
    if jsWs c then
      if inGap then splitWsGo true cur cs
      else cur.reverse :: splitWsGo true [] cs
    else splitWsGo false (c :: cur) cs

/-- JavaScript `str.split(/\s+/)`: fields between maximal whitespace
runs; an empty input yields `[""]`, leading/trailing runs yield empty
boundary fields (the parser only ever applies it to trimmed text). -/
def splitWs (l : List Char) : List (List Char) :=
  splitWsGo false [] l

/-- List-level `startsWith` (JavaScript `String.prototype.startsWith`). -/
def listStartsWith (pre l : List Char) : Bool :=
  l.take pre.length == pre

/-- JavaScript `parseInt` restricted to the strings the listen-regex
capture group can produce (nonempty decimal digit runs): parse the
leading digit run. The `NaN` branch (no leading digit) is unreachable
from real captures and is mapped to 0. -/
def parseIntNat (s : List Char) : Nat :=
  (s.takeWhile Char.isDigit).foldl (fun a c => a * 10 + (c.toNat - '0'.toNat)) 0

/-! ## The directive regexes of `parseNginxConfig`

`/server_name\s+([^;]+);/` and `/ssl_certificate\s+([^;]+);/` share the
shape `LIT \s+ ([^;]+) ;`.  At a candidate position the pattern matches
iff the literal is followed by at least one whitespace character and the
first `;` after the literal lies at offset ≥ 2 from the literal's end
(so that `\s+` and `[^;]+` can both be nonempty); the capture is the
text between the maximal whitespace run and that `;`, except that when
the whitespace run reaches the `;` the greedy `\s+` backtracks by one
character and the capture is that single whitespace character. -/

/-- First match of `/LIT\s+([^;]+);/` in `l`, returning the capture
group (JavaScript `content.match(...)` with leftmost-match search). -/
def findDirectiveArg (lit : List Char) : List Char → Option (List Char)
  | [] => none
  | c :: cs =>
    let l := c :: cs
    if l.take lit.length = lit then
      let r := l.drop lit.length
      let w := runLen jsWs r
      match r.findIdx? (fun x => x = ';') with
      | some k =>
        if 1 ≤ w ∧ 2 ≤ k then
          some (if w < k then (r.drop w).take (k - w) else (r.drop (k - 1)).take 1)
        else findDirectiveArg lit cs
      | none => findDirectiveArg lit cs
    else findDirectiveArg lit cs

/-! ## The listen-directive regex

`/listen\s+(?:[\d.]+:)?(\d+)(?:\s+ssl)?/g` (source line 173), iterated
via `matchAll`.  Backtracking resolution for the optional groups:
the `ip:` group matches iff the maximal `[\d.]` run (nonempty) is
followed by a literal `:` and a digit; otherwise the port digits are
taken directly (which requires the first `[\d.]`-run character, if any,
to be a digit); the trailing group matches iff the digits are followed
by a maximal whitespace run and then the literal `ssl`. -/

/-- One listen directive as produced by the global regex: the full
matched text (`match[0]`) and the port capture group (`match[1]`). -/
structure ListenMatch where
  full : List Char
  portStr : List Char
  deriving DecidableEq

/-- Length consumed by the optional `(?:\s+ssl)?` group at `rest`. -/
def sslOptLen (rest : List Char) : Nat :=
  let v := runLen jsWs rest
  if 0 < v ∧ (rest.drop v).take 3 = "ssl".data then v + 3 else 0

/-- Attempt to match the listen regex at the start of `l`.  On success
returns `(n, capture)` where the full match is `l.take (6 + n)`
(6 being the length of the literal `listen`). -/
def tryListenAt (l : List Char) : Option (Nat × List Char) :=
  if l.take 6 = "listen".data then
    let r1 := l.drop 6
    let w := runLen jsWs r1
    if w = 0 then none
    else
      let r2 := r1.drop w
      let ip := runLen isDigitDot r2
      let afterColon := r2.drop (ip + 1)
      let d1 := runLen Char.isDigit afterColon
      if 0 < ip ∧ (r2.drop ip).head? = some ':' ∧ 0 < d1 then
        some (w + ip + 1 + d1 + sslOptLen (afterColon.drop d1), afterColon.take d1)
      else
        let d2 := runLen Char.isDigit r2
        if 0 < d2 then
          some (w + d2 + sslOptLen (r2.drop d2), r2.take d2)
        else none
  else none

/-- `matchAll` scan: find successive non-overlapping matches, resuming
after each match's end (`lastIndex` semantics).  `fuel` bounds the
number of scan steps; it is instantiated with the text length, which
suffices because every step consumes at least one character. -/
def listenScanF : Nat → List Char → List ListenMatch
  | 0, _ => []
  | _, [] => []
  | fuel + 1, c :: cs =>
    match tryListenAt (c :: cs) with
    | some (n, cap) => ⟨(c :: cs).take (6 + n), cap⟩ :: listenScanF fuel ((c :: cs).drop (6 + n))
    | none => listenScanF fuel cs

/-- All matches of the listen regex in `content` (source line 173). -/
def listenMatches (content : List Char) : List ListenMatch :=
  listenScanF content.length content

/-! ## Port/TLS resolution (source lines 168–195) -/

/-- `match[0].includes(' ssl')` (source line 179). -/
def hasSslFlag (m : ListenMatch) : Bool :=
  hasSub " ssl".data m.full

/-- The break condition of the listen loop (line 182):
`hasSslFlag || matchedPort === 443`. -/
def listenWins (m : ListenMatch) : Bool :=
  hasSslFlag m || parseIntNat m.portStr = 443

/-- The listen-directive loop of `parseNginxConfig` (lines 177–189):
state `(port, isSsl)`; a directive with the inline ssl flag or port 443
wins and breaks; otherwise a directive's port is recorded while the
port state is still 80. -/
def listenLoop (port : Nat) (isSsl : Bool) : List ListenMatch → Nat × Bool
  | [] => (port, isSsl)
  | m :: rest =>
    let matchedPort := parseIntNat m.portStr
    if listenWins m then (matchedPort, true)
    else if port = 80 then listenLoop matchedPort isSsl rest
    else listenLoop port isSsl rest

/-- Port/TLS resolution for one config (lines 174–195): the loop starts
from `port = 80` and `isSsl = hasSslCert` (line 175), and afterwards the
`hasSslCert && !isSsl` branch (lines 192–195) would force `(443, true)`. -/
def resolvePortSsl (hasSslCert : Bool) (ms : List ListenMatch) : Nat × Bool :=
  let r := listenLoop 80 hasSslCert ms
  if hasSslCert && !r.2 then (443, true) else r

/-! ## The parsed entry and `parseNginxConfig` (lines 150–218) -/

/-- Discovery output for one config file (the anonymous record type of
`getNginxSites` / `parseNginxConfig` in the source). -/
structure RawSiteEntry where
  domain : String
  configPath : String
  isEnabled : Bool
  port : Nat
  isSsl : Bool
  sslCertPath : Option String
  deriving DecidableEq

/-- Domain selection (lines 165–166):
`domains.find(d => d !== '_') || domains[0]` — the first non-wildcard
name, falling back to the first name when none exists or when the found
name is the empty string (JavaScript `||` treats `""` as falsy). -/
def pickDomain (domains : List (List Char)) : List Char :=
  match domains.find? (fun d => !(d == "_".data)) with
  | some d => if d = [] then domains.headD [] else d
  | none => domains.headD []

/-- Pure core of `parseNginxConfig` (lines 161–213): given the file's
text, extract the domain, resolve port/TLS from the listen directives
and certificate evidence, and extract the certificate path. Returns
`none` when no `server_name` directive matches (line 163). -/
def parseNginxConfig (content : String) (configPath : String) (isEnabled : Bool) :
    Option RawSiteEntry :=
  match findDirectiveArg "server_name".data content.data with
  | none => none
  | some arg =>
    let domains := splitWs (trimJs arg)
    let domain := pickDomain domains
    let hasSslCert := hasSub "ssl_certificate".data content.data
    let pr := resolvePortSsl hasSslCert (listenMatches content.data)
    let sslCertPath : Option String :=
      if pr.2 then
        (findDirectiveArg "ssl_certificate".data content.data).map
          (fun a => String.mk (trimJs a))
      else none
    some { domain := String.mk domain, configPath := configPath, isEnabled := isEnabled,
           port := pr.1, isSsl := pr.2, sslCertPath := sslCertPath }

/-! ## Deduplication (source lines 32–39)

The JavaScript `Map<string, ...>` is modelled as an association list
with `Map` semantics: `set` on an existing key replaces the value in
place (preserving insertion order), otherwise appends. -/

/-- The dedup map (`uniqueSites` in the source). -/
abbrev SiteMap := List (String × RawSiteEntry)

/-- JavaScript `Map.prototype.get`. -/
def mapGet : SiteMap → String → Option RawSiteEntry
  | [], _ => none
  | (k, v) :: rest, d => if k = d then some v else mapGet rest d

/-- JavaScript `Map.prototype.set` (replace in place or append). -/
def mapSet : SiteMap → String → RawSiteEntry → SiteMap
  | [], k, v => [(k, v)]
  | (k0, v0) :: rest, k, v =>
    if k0 = k then (k0, v) :: rest else (k0, v0) :: mapSet rest k v

/-- One step of the dedup loop (lines 35–38):
`if (!existing || (site.isSsl && !existing.isSsl)) set(domain, site)`. -/
def dedupeStep (m : SiteMap) (site : RawSiteEntry) : SiteMap :=
  match mapGet m site.domain with
  | none => mapSet m site.domain site
  | some existing =>
    if site.isSsl && !existing.isSsl then mapSet m site.domain site else m

/-- The dedup loop over all discovered entries (lines 33–39). -/
def dedupe (entries : List RawSiteEntry) : SiteMap :=
  entries.foldl dedupeStep []

/-! ## Discovery (`getNginxSites`, source lines 60–148)

The filesystem and subprocess interface is an explicit state: each
`ls`/`find` invocation and each file read either yields text or fails
(the `catch` blocks of the source). -/

/-- Ambient filesystem/subprocess state consumed by discovery. -/
structure FsState where
  nginxConfExists : Bool
  enabledLs : Except Unit String
  availableLs : Except Unit String
  pleskFind : Except Unit String
  pleskConfLs : Except Unit String
  readFile : String → Except Unit String
  sudoCat : String → Except Unit String

/-- Paths read with `sudo cat` instead of `fs.readFile`
(source line 154). -/
def needsSudo (path : String) : Bool :=
  hasSub "/var/www/vhosts/system".data path.data ||
  hasSub "/etc/nginx/plesk.conf.d".data path.data

/-- The privileged-or-plain read of `parseNginxConfig`
(lines 153–159). -/
def readConfig (fs : FsState) (path : String) : Except Unit String :=
  if needsSudo path then fs.sudoCat path else fs.readFile path

/-- `parseNginxConfig` including its file read and catch-all
(lines 150–218): an unreadable file parses to `none`. -/
def parseConfigFile (fs : FsState) (path : String) (isEnabled : Bool) :
    Option RawSiteEntry :=
  match readConfig fs path with
  | Except.error _ => none
  | Except.ok content => parseNginxConfig content path isEnabled

/-- `out.trim().split('\n').filter(f => f && f !== 'default')`
(lines 81, 97). -/
def lsFiles (out : String) : List String :=
  (((trimJs out.data).splitOn '\n').filter
    (fun f => !(f == []) && !(f == "default".data))).map (fun l => String.mk l)

/-- File names of the standard enabled-sites layout; `[]` when the
listing subprocess fails (the catch at line 90). -/
def enabledFileList (fs : FsState) : List String :=
  match fs.enabledLs with
  | Except.error _ => []
  | Except.ok out => lsFiles out

/-- Parse of one enabled-layout file (line 84–85). -/
def enabledEntry (fs : FsState) (f : String) : Option RawSiteEntry :=
  parseConfigFile fs ("/etc/nginx/sites-enabled/" ++ f) true

/-- Entries contributed by the enabled-sites layout (lines 79–92). -/
def layoutEnabled (fs : FsState) : List RawSiteEntry :=
  (enabledFileList fs).filterMap (enabledEntry fs)

/-- File names of the available-but-not-enabled layout (lines 96–102);
the block lists both directories, so either listing failing aborts it
(catch at line 110). The enabled-name set is the unfiltered split
(line 99). -/
def availableFileList (fs : FsState) : List String :=
  match fs.availableLs, fs.enabledLs with
  | Except.ok avOut, Except.ok enOut =>
    (lsFiles avOut).filter
      (fun f => !(((trimJs enOut.data).splitOn '\n').contains f.data))
  | _, _ => []

/-- Parse of one available-layout file (lines 103–104). -/
def availableEntry (fs : FsState) (f : String) : Option RawSiteEntry :=
  parseConfigFile fs ("/etc/nginx/sites-available/" ++ f) false

/-- Entries contributed by the available-sites layout (lines 95–112). -/
def layoutAvailable (fs : FsState) : List RawSiteEntry :=
  (availableFileList fs).filterMap (availableEntry fs)

/-- Config paths found under the Plesk vhosts root (lines 116–117);
`[]` when the find subprocess fails (catch at line 125). -/
def pleskVhostFiles (fs : FsState) : List String :=
  match fs.pleskFind with
  | Except.error _ => []
  | Except.ok out =>
    (((trimJs out.data).splitOn '\n').filter (fun f => !(f == []))).map
      (fun l => String.mk l)

/-- Parse of one Plesk vhost config, tagging the reported path with
the origin marker (line 122). -/
def pleskVhostEntry (fs : FsState) (p : String) : Option RawSiteEntry :=
  (parseConfigFile fs p true).map (fun e => { e with configPath := p ++ " (Plesk)" })

/-- Entries contributed by the Plesk vhosts layout (lines 115–127). -/
def layoutPleskVhosts (fs : FsState) : List RawSiteEntry :=
  (pleskVhostFiles fs).filterMap (pleskVhostEntry fs)

/-- Config paths from the Plesk conf.d glob (lines 131–132); `[]` when
the listing fails (catch at line 140). -/
def pleskConfFiles (fs : FsState) : List String :=
  match fs.pleskConfLs with
  | Except.error _ => []
  | Except.ok out =>
    (((trimJs out.data).splitOn '\n').filter (fun f => !(f == []))).map
      (fun l => String.mk l)

/-- Parse of one Plesk conf.d config with the origin marker
(line 137). -/
def pleskConfEntry (fs : FsState) (p : String) : Option RawSiteEntry :=
  (parseConfigFile fs p true).map (fun e => { e with configPath := p ++ " (Plesk)" })

/-- Entries contributed by the Plesk conf.d layout (lines 130–142). -/
def layoutPleskConf (fs : FsState) : List RawSiteEntry :=
  (pleskConfFiles fs).filterMap (pleskConfEntry fs)

/-- `getNginxSites` (lines 60–148): nothing when `/etc/nginx` is absent
(lines 65–68); otherwise the four layout blocks push their entries in
sequence, each wrapped in its own try/catch. -/
def getNginxSites (fs : FsState) : List RawSiteEntry :=
  if fs.nginxConfExists then
    layoutEnabled fs ++ layoutAvailable fs ++ layoutPleskVhosts fs ++ layoutPleskConf fs
  else []

/-! ## Certificate inspection (`checkSite`, `getPleskSSLCertInfo`,
`getSSLCertInfo`; source lines 220–327) -/

/-- `Math.floor((expiry.getTime() - now.getTime()) / (1000*60*60*24))`
(lines 284 and 310), on millisecond timestamps; `Int.fdiv` is floor
division. -/
def certDaysRemaining (expiryMs nowMs : Int) : Int :=
  (expiryMs - nowMs).fdiv (1000 * 60 * 60 * 24)

/-- Result of `getPleskSSLCertInfo` once the `notAfter=` timestamp has
been extracted (lines 281–285): the expiry and the days remaining. -/
def pleskCertInfo (notAfterMs nowMs : Int) : Int × Int :=
  (notAfterMs, certDaysRemaining notAfterMs nowMs)

/-- Result of `getSSLCertInfo`'s response callback (lines 305–315):
`valid_to` present yields the expiry and days remaining, an absent
certificate field (and the error/timeout callbacks) yield `none`. -/
def handshakeCertInfo (validToMs : Option Int) (nowMs : Int) : Option (Int × Int) :=
  match validToMs with
  | some v => some (v, certDaysRemaining v nowMs)
  | none => none

/-- The TLS client options built by `getSSLCertInfo` (lines 296–303). -/
structure TlsConnectOptions where
  host : String
  port : Nat
  method : String
  rejectUnauthorized : Bool
  servername : String
  family : Nat
  deriving DecidableEq

/-- Options record of source lines 296–303: request `domain:port` with
SNI `servername = domain`, no chain validation, forced IPv4. -/
def sslConnectOptions (domain : String) (port : Nat) : TlsConnectOptions :=
  { host := domain, port := port, method := "GET", rejectUnauthorized := false,
    servername := domain, family := 4 }

/-- Which certificate-inspection strategy `checkSite` runs for a site. -/
inductive CertStrategy where
  | pleskFile (certPath : String)
  | handshake (opts : TlsConnectOptions)
  | skip
  deriving DecidableEq

/-- Strategy selection of `checkSite` (lines 232–245): inspection runs
only under `site.isSsl && site.sslCertPath` (a missing or empty path is
falsy); a path under the Plesk store is read from disk, any other path
triggers the network handshake. -/
def certStrategyFor (site : RawSiteEntry) : CertStrategy :=
  match site.sslCertPath with
  | some p =>
    if site.isSsl && !(p == "") then
      if listStartsWith "/opt/psa/var/certificates/".data p.data then
        CertStrategy.pleskFile p
      else
        CertStrategy.handshake (sslConnectOptions site.domain site.port)
    else CertStrategy.skip
  | none => CertStrategy.skip

/-! ## Reachability probe (`checkReachability`, source lines 329–371) -/

/-- Outcome of the single GET request: the response callback fires with
a status code and elapsed time, or the error / timeout callback fires. -/
inductive ProbeOutcome where
  | response (statusCode : Nat) (elapsedMs : Nat)
  | connError
  | timeout
  deriving DecidableEq

/-- The reported reachability record (fields of `Site` set at
lines 261–263). -/
structure ReachResult where
  isReachable : Bool
  statusCode : Option Nat
  responseTimeMs : Option Nat
  deriving DecidableEq

/-- URL construction of lines 333–337: the port is omitted exactly when
it is the protocol's standard port. -/
def buildProbeUrl (domain : String) (port : Nat) (isSsl : Bool) : String :=
  let isStandardPort := (isSsl && port = 443) || (!isSsl && port = 80)
  let scheme := if isSsl then "https" else "http"
  if isStandardPort then scheme ++ "://" ++ domain
  else scheme ++ "://" ++ domain ++ ":" ++ toString port

/-- `checkReachability` (lines 329–371): every callback resolves the
promise — the response callback with `(true, status, elapsed)`
(lines 351–359), the error callback (lines 361–364) and the timeout
callback (lines 366–369) with `isReachable = false` and no status or
latency.  The function never rejects. -/
def checkReachability (domain : String) (port : Nat) (isSsl : Bool)
    (outcome : ProbeOutcome) : ReachResult :=
  match outcome with
  | ProbeOutcome.response s t => ⟨true, some s, some t⟩
  | ProbeOutcome.connError => ⟨false, none, none⟩
  | ProbeOutcome.timeout => ⟨false, none, none⟩

/-! ## Batch scheduling (`collectAll`, source lines 42–52)

The loop takes `slice(i, i+3)` per iteration, awaits the whole batch
(`Promise.all`, whose result array is in the batch's input order),
appends the results, and sleeps 2000 ms when `i + 3 < length`. -/

/-- The per-site results in the order `collectAll` accumulates them:
`Promise.all` keeps each batch in input order and batches are appended
in sequence (lines 43–46). `f` abstracts `checkSite`. -/
def runBatches {α β : Type} (f : α → β) : List α → List β
  | [] => []
  | [a] => [f a]
  | [a, b] => [f a, f b]
  | a :: b :: c :: rest => [f a, f b, f c] ++ runBatches f rest

/-- The consecutive size-3 slices `slice(i, i+3)` taken by the loop. -/
def chunks3 {α : Type} : List α → List (List α)
  | [] => []
  | [a] => [[a]]
  | [a, b] => [[a, b]]
  | a :: b :: c :: rest => [a, b, c] :: chunks3 rest

/-- Events of the scheduler's sequential await trace. -/
inductive SchedEv (α : Type) where
  | batch (sites : List α)
  | pause (ms : Nat)
  deriving DecidableEq

/-- The await trace of the loop (lines 43–52): one `batch` event per
slice (the loop awaits the whole batch before continuing) and a
`pause 2000` exactly when `i + 3 < length`, i.e. between consecutive
batches but not after the final one. -/
def schedule {α : Type} : List α → List (SchedEv α)
  | [] => []
  | [a] => [SchedEv.batch [a]]
  | [a, b] => [SchedEv.batch [a, b]]
  | [a, b, c] => [SchedEv.batch [a, b, c]]
  | a :: b :: c :: d :: rest =>
    SchedEv.batch [a, b, c] :: SchedEv.pause 2000 :: schedule (d :: rest)

/-! ## Auxiliary definitions used by the claim statements -/

/-- Modelled from the claim's wording of the provisional-port rule:
while the recorded port is still the unset default 80, a scanned
directive's port is taken as the provisional port. -/
def provisionalAfter (port : Nat) : List ListenMatch → Nat
  | [] => port
  | m :: rest =>
    if port = 80 then provisionalAfter (parseIntNat m.portStr) rest
    else provisionalAfter port rest

/-- Every pair stored by the dedup loop is keyed by its entry's domain. -/
def SelfKeyed (m : SiteMap) : Prop :=
  ∀ p ∈ m, (Prod.snd p).domain = Prod.fst p

/-- Witness fixture: no `/etc/nginx` at all. -/
def fsAbsent : FsState :=
  { nginxConfExists := false, enabledLs := Except.error (),
    availableLs := Except.error (), pleskFind := Except.error (),
    pleskConfLs := Except.error (), readFile := fun _ => Except.error (),
    sudoCat := fun _ => Except.error () }

/-- Witness fixture: the enabled-sites listing succeeds with one
parsable and one unreadable file; every other layout's listing fails. -/
def fsMixed : FsState :=
  { nginxConfExists := true
    enabledLs := Except.ok "site1\nbadfile"
    availableLs := Except.error ()
    pleskFind := Except.error ()
    pleskConfLs := Except.error ()
    readFile := fun p =>
      if p = "/etc/nginx/sites-enabled/site1" then
        Except.ok "server_name site1.example;\nlisten 80;\n"
      else Except.error ()
    sudoCat := fun _ => Except.error () }

/-! ## General lemmas -/

/-- Case analysis following the scheduler's three-at-a-time recursion. -/
theorem threeStep {α : Type} {motive : List α → Prop} (h0 : motive [])
    (h1 : ∀ a, motive [a]) (h2 : ∀ a b, motive [a, b])
    (h3 : ∀ a b c rest, motive rest → motive (a :: b :: c :: rest)) :
    ∀ l, motive l
  | [] => h0
  | [a] => h1 a
  | [a, b] => h2 a b
  | a :: b :: c :: rest => h3 a b c rest (threeStep h0 h1 h2 h3 rest)

theorem chunks3_ne_nil {α : Type} (x : α) (xs : List α) : chunks3 (x :: xs) ≠ [] := by
  rcases xs with _ | ⟨b, _ | ⟨c, rest⟩⟩ <;> simp [chunks3]

/-! ## Claim C1 (code bug)

The spec demands that certificate evidence with no TLS-resolving listen
directive force `port = 443`.  In the source, `isSsl` is initialised to
`hasSslCert` (line 175), so the forcing branch `hasSslCert && !isSsl`
(line 192) can never fire, and the port stays at the listen-scan value.
The following theorem evaluates the parser at the spec's own example
(`ssl_certificate` plus only `listen 80;`): the result is
`port = 80, isSsl = true`, not the claimed `port = 443`. -/

/-- Claim C1: at a config with certificate evidence, no inline ssl flag
and only `listen 80;`, the parser returns `port = 80` (with
`isSsl = true`), contradicting the claimed forced `port = 443`: the
forcing branch is dead code because `isSsl` starts as `hasSslCert`. -/
theorem c1_cert_evidence_listen80_eval :
    parseNginxConfig
      "server_name example.com;\nlisten 80;\nssl_certificate /etc/ssl/cert.pem;\n"
      "/etc/nginx/sites-enabled/example.com" true =
    some { domain := "example.com",
           configPath := "/etc/nginx/sites-enabled/example.com",
           isEnabled := true, port := 80, isSsl := true,
           sslCertPath := some "/etc/ssl/cert.pem" } := by
  decide

/-! ## Claim C2 (corrected) -/

/-- Claim C2 counterexample: a TLS site whose parse extracted no
certificate path is claimed to be inspected via the handshake strategy,
but `checkSite` guards inspection with `site.isSsl && site.sslCertPath`
(line 232), so no inspection runs at all. -/
theorem c2_no_certpath_skips_inspection :
    certStrategyFor { domain := "example.com",
                      configPath := "/etc/nginx/sites-enabled/example.com",
                      isEnabled := true, port := 443, isSsl := true,
                      sslCertPath := none } = CertStrategy.skip := by
  decide

/-- Claim C2 (amended): a TLS site with a nonempty extracted certificate
path outside the Plesk store is inspected via the handshake strategy —
a TLS client request to `domain:port` with SNI `servername = domain` and
`rejectUnauthorized = false` — and a successful handshake yields the
peer certificate's not-after field together with the derived days
remaining; a TLS site with no extracted path is not inspected. -/
theorem c2_handshake_strategy_selection :
    (∀ (site : RawSiteEntry) (p : String), site.isSsl = true →
      site.sslCertPath = some p → p ≠ "" →
      listStartsWith "/opt/psa/var/certificates/".data p.data = false →
      certStrategyFor site = CertStrategy.handshake
        { host := site.domain, port := site.port, method := "GET",
          rejectUnauthorized := false, servername := site.domain, family := 4 })
    ∧ (∀ site : RawSiteEntry, site.sslCertPath = none →
        certStrategyFor site = CertStrategy.skip)
    ∧ (∀ (v now : Int),
        handshakeCertInfo (some v) now = some (v, certDaysRemaining v now)) := by
  refine ⟨fun site p hssl hpath hne hpre => ?_, fun site hpath => ?_, fun v now => rfl⟩
  · unfold certStrategyFor
    rw [hpath]
    have hbe : (p == "") = false := by
      simpa [beq_iff_eq] using hne
    simp [hssl, hbe, hpre, sslConnectOptions]
  · unfold certStrategyFor
    rw [hpath]

/-- Witness for C2's amended theorem at a concrete TLS site with a
non-Plesk certificate path. -/
theorem c2_handshake_strategy_selection_witness :
    certStrategyFor { domain := "shop.example.com", configPath := "cp",
                      isEnabled := true, port := 8443, isSsl := true,
                      sslCertPath := some "/etc/ssl/shop.pem" } =
      CertStrategy.handshake
        { host := "shop.example.com", port := 8443, method := "GET",
          rejectUnauthorized := false, servername := "shop.example.com",
          family := 4 } :=
  c2_handshake_strategy_selection.1 _ "/etc/ssl/shop.pem" rfl rfl
    (by decide) (by decide)

/-! ## Claim C7 (probe error handling) -/

/-- Claim C7: the reachability probe never throws — every outcome
resolves to a result; timeouts and connection errors yield
`isReachable = false` with no status code and no latency, a response
yields `isReachable = true` with the response's status code and the
elapsed time. -/
theorem c7_probe_never_throws :
    ∀ (domain : String) (port : Nat) (isSsl : Bool) (o : ProbeOutcome),
      ((o = ProbeOutcome.connError ∨ o = ProbeOutcome.timeout) →
        checkReachability domain port isSsl o = ⟨false, none, none⟩)
      ∧ (∀ s t, o = ProbeOutcome.response s t →
        checkReachability domain port isSsl o = ⟨true, some s, some t⟩) := by
  intro domain port isSsl o
  constructor
  · rintro (rfl | rfl) <;> rfl
  · rintro s t rfl; rfl

/-- Witness for C7 at concrete outcomes. -/
theorem c7_probe_never_throws_witness :
    checkReachability "example.com" 443 true ProbeOutcome.timeout = ⟨false, none, none⟩
    ∧ checkReachability "example.com" 80 false (ProbeOutcome.response 200 35) =
        ⟨true, some 200, some 35⟩ :=
  ⟨(c7_probe_never_throws "example.com" 443 true ProbeOutcome.timeout).1 (Or.inr rfl),
   (c7_probe_never_throws "example.com" 80 false (ProbeOutcome.response 200 35)).2
     200 35 rfl⟩

/-! ## Claim C8 (days-remaining arithmetic) -/

/-- Claim C8: both certificate strategies compute
`floor((expiry - now) / 86400000)` on millisecond timestamps: a
certificate expiring in exactly 10 days yields 10, an already-expired
certificate yields a negative value. -/
theorem c8_days_remaining_floor :
    ∀ (now e : Int),
      (pleskCertInfo (now + 10 * (1000 * 60 * 60 * 24)) now).2 = 10
      ∧ handshakeCertInfo (some (now + 10 * (1000 * 60 * 60 * 24))) now =
          some (now + 10 * (1000 * 60 * 60 * 24), 10)
      ∧ (e < now →
          (pleskCertInfo e now).2 < 0
          ∧ handshakeCertInfo (some e) now = some (e, certDaysRemaining e now)
          ∧ certDaysRemaining e now < 0) := by
  intro now e
  have hten : certDaysRemaining (now + 10 * (1000 * 60 * 60 * 24)) now = 10 := by
    unfold certDaysRemaining
    have h : now + 10 * (1000 * 60 * 60 * 24) - now = 10 * (1000 * 60 * 60 * 24) := by
      ring
    rw [h, Int.mul_fdiv_cancel]
    decide
  have hneg : e < now → certDaysRemaining e now < 0 := by
    intro hlt
    unfold certDaysRemaining
    exact Int.fdiv_neg' (by omega) (by decide)
  refine ⟨hten, ?_, fun hlt => ⟨hneg hlt, rfl, hneg hlt⟩⟩
  simp only [handshakeCertInfo, hten]

/-- Witness for C8 at `now = 0`, expired certificate at `-1`. -/
theorem c8_days_remaining_floor_witness :
    (pleskCertInfo (0 + 10 * (1000 * 60 * 60 * 24)) 0).2 = 10
    ∧ ((-1 : Int) < 0 → (pleskCertInfo (-1) 0).2 < 0) :=
  ⟨(c8_days_remaining_floor 0 (-1)).1,
   fun h => ((c8_days_remaining_floor 0 (-1)).2.2 h).1⟩

/-! ## Claim C10 (scheduler output order) -/

/-- Claim C10: the scheduler's output is exactly one result per entry,
in the deduplicated input order — batching with in-batch order
preserved (`Promise.all`) and batches appended in sequence amounts to
a plain `map`. -/
theorem c10_scheduler_order_deterministic :
    ∀ {α β : Type} (f : α → β) (l : List α), runBatches f l = l.map f := by
  intro α β f l
  induction l using threeStep with
  | h0 => rfl
  | h1 a => rfl
  | h2 a b => rfl
  | h3 a b c rest ih => simp [runBatches, ih]

/-! ## Claim C6 (batch schedule trace) -/

/-- Claim C6: the scheduler's await trace partitions the entries into
consecutive batches of size 3 (the last possibly smaller), runs the
batches strictly in sequence, and places a 2000 ms pause between
consecutive batches and none after the final batch — i.e. the trace is
exactly the batch events interspersed with single pauses. -/
theorem c6_batch_schedule_trace {α : Type} (l : List α) :
    schedule l =
      List.intersperse (SchedEv.pause 2000) ((chunks3 l).map SchedEv.batch)
    ∧ (chunks3 l).join = l
    ∧ (∀ b ∈ chunks3 l, b ≠ [] ∧ b.length ≤ 3)
    ∧ (∀ b ∈ (chunks3 l).dropLast, b.length = 3) := by
  induction l using threeStep with
  | h0 => simp [schedule, chunks3]
  | h1 a => simp [schedule, chunks3]
  | h2 a b => simp [schedule, chunks3]
  | h3 a b c rest ih =>
    obtain ⟨ih1, ih2, ih3, ih4⟩ := ih
    rcases rest with _ | ⟨d, rest'⟩
    · simp [schedule, chunks3]
    · have hne : chunks3 (d :: rest') ≠ [] := chunks3_ne_nil d rest'
      have hch : chunks3 (a :: b :: c :: d :: rest') =
          [a, b, c] :: chunks3 (d :: rest') := rfl
      refine ⟨?_, ?_, ?_, ?_⟩
      · have hs : schedule (a :: b :: c :: d :: rest') =
            SchedEv.batch [a, b, c] :: SchedEv.pause 2000 ::
              schedule (d :: rest') := rfl
        rw [hs, ih1, hch]
        rcases hc : chunks3 (d :: rest') with _ | ⟨y, zs⟩
        · exact absurd hc hne
        · simp [List.intersperse_cons_cons]
      · rw [hch]
        simp [ih2]
      · intro x hx
        rw [hch] at hx
        rcases List.mem_cons.mp hx with h | h
        · subst h; exact ⟨by simp, by simp⟩
        · exact ih3 x h
      · intro x hx
        rw [hch, List.dropLast_cons_of_ne_nil hne] at hx
        rcases List.mem_cons.mp hx with h | h
        · subst h; rfl
        · exact ih4 x h

/-- Witness for C6 at a concrete list of five entries (two full
batches of 3 and 2, with exactly one pause in between). -/
theorem c6_batch_schedule_trace_witness :
    schedule [0, 1, 2, 3, 4] =
      List.intersperse (SchedEv.pause 2000)
        ((chunks3 [0, 1, 2, 3, 4]).map SchedEv.batch)
    ∧ ([0, 1, 2] ∈ chunks3 [0, 1, 2, 3, 4] → [0, 1, 2] ≠ [] ∧ List.length [0, 1, 2] ≤ 3)
    ∧ ([0, 1, 2] ∈ (chunks3 [0, 1, 2, 3, 4]).dropLast → List.length [0, 1, 2] = 3) :=
  ⟨(c6_batch_schedule_trace [0, 1, 2, 3, 4]).1,
   fun h => (c6_batch_schedule_trace [0, 1, 2, 3, 4]).2.2.1 [0, 1, 2] h,
   fun h => (c6_batch_schedule_trace [0, 1, 2, 3, 4]).2.2.2 [0, 1, 2] h⟩

/-! ## Claim C4 (listen scan resolution) -/

theorem listenLoop_winner (m : ListenMatch) (ms₂ : List ListenMatch) :
    ∀ (ms₁ : List ListenMatch) (port : Nat) (s : Bool),
      (∀ m' ∈ ms₁, listenWins m' = false) → listenWins m = true →
      listenLoop port s (ms₁ ++ m :: ms₂) = (parseIntNat m.portStr, true) := by
  intro ms₁
  induction ms₁ with
  | nil =>
    intro port s _ hw
    simp [listenLoop, hw]
  | cons m' ms₁ ih =>
    intro port s hall hw
    have hm' : listenWins m' = false := hall m' (by simp)
    have hrest : ∀ x ∈ ms₁, listenWins x = false :=
      fun x hx => hall x (by simp [hx])
    simp only [List.cons_append, listenLoop, hm']
    simp only [Bool.false_eq_true, if_false]
    split <;> exact ih _ _ hrest hw

theorem listenLoop_noWinner :
    ∀ (ms : List ListenMatch) (port : Nat) (s : Bool),
      (∀ m ∈ ms, listenWins m = false) →
      listenLoop port s ms = (provisionalAfter port ms, s) := by
  intro ms
  induction ms with
  | nil => intro port s _; rfl
  | cons m rest ih =>
    intro port s hall
    have hm : listenWins m = false := hall m (by simp)
    have hrest : ∀ x ∈ rest, listenWins x = false :=
      fun x hx => hall x (by simp [hx])
    by_cases hp : port = 80 <;>
      simp [listenLoop, provisionalAfter, hm, hp, ih _ _ hrest]

/-- Claim C4: scanning the listen directives in file order, the first
directive carrying the inline ssl flag or specifying port 443 sets the
port to its own port with `isTls = true` and stops the scan; with no
such directive the port is the provisional value accumulated while the
recorded port is still the default 80 (and the TLS flag is the
certificate evidence); concretely, `listen 443 ssl;` before
`listen 80;` parses to `port = 443, isTls = true`. -/
theorem c4_listen_scan_resolution :
    (∀ (c : Bool) (ms₁ ms₂ : List ListenMatch) (m : ListenMatch),
      (∀ m' ∈ ms₁, listenWins m' = false) → listenWins m = true →
      resolvePortSsl c (ms₁ ++ m :: ms₂) = (parseIntNat m.portStr, true))
    ∧ (∀ (c : Bool) (ms : List ListenMatch),
      (∀ m' ∈ ms, listenWins m' = false) →
      resolvePortSsl c ms = (provisionalAfter 80 ms, c))
    ∧ parseNginxConfig "server_name example.com;\nlisten 443 ssl;\nlisten 80;\n"
        "p" true =
      some { domain := "example.com", configPath := "p", isEnabled := true,
             port := 443, isSsl := true, sslCertPath := none } := by
  refine ⟨fun c ms₁ ms₂ m hall hw => ?_, fun c ms hall => ?_, by decide⟩
  · unfold resolvePortSsl
    rw [listenLoop_winner m ms₂ ms₁ 80 c hall hw]
    simp
  · unfold resolvePortSsl
    rw [listenLoop_noWinner ms 80 c hall]
    cases c <;> simp

/-- Witness for C4 at concrete listen-directive lists: a winning
`listen 443 ssl` after a plain `listen 80`, and a single non-winning
`listen 8080`. -/
theorem c4_listen_scan_resolution_witness :
    resolvePortSsl false
        ([⟨"listen 80".data, "80".data⟩] ++
          ⟨"listen 443 ssl".data, "443".data⟩ :: []) = (443, true)
    ∧ resolvePortSsl true [⟨"listen 8080".data, "8080".data⟩] = (8080, true) :=
  ⟨(c4_listen_scan_resolution.1 false [⟨"listen 80".data, "80".data⟩] []
      ⟨"listen 443 ssl".data, "443".data⟩ (by decide) (by decide)).trans
    (by decide),
   (c4_listen_scan_resolution.2.1 true [⟨"listen 8080".data, "8080".data⟩]
      (by decide)).trans (by decide)⟩

/-! ## Dedup lemmas (claims C3, C9) -/

theorem mapGet_eq_none_iff (m : SiteMap) (d : String) :
    mapGet m d = none ↔ d ∉ m.map Prod.fst := by
  induction m with
  | nil => simp [mapGet]
  | cons p rest ih =>
    obtain ⟨k, v⟩ := p
    simp only [List.map_cons, List.mem_cons]
    by_cases hk : k = d
    · subst hk
      simp [mapGet]
    · rw [show mapGet ((k, v) :: rest) d = mapGet rest d from by
        simp [mapGet, hk]]
      rw [ih]
      constructor
      · intro h hmem
        rcases hmem with h' | h'
        · exact hk h'.symm
        · exact h h'
      · intro h hmem
        exact h (Or.inr hmem)

theorem mapSet_map_fst_of_mem (m : SiteMap) (k : String) (v : RawSiteEntry)
    (h : k ∈ m.map Prod.fst) :
    (mapSet m k v).map Prod.fst = m.map Prod.fst := by
  induction m with
  | nil => simp at h
  | cons p rest ih =>
    obtain ⟨k0, v0⟩ := p
    by_cases hk : k0 = k
    · simp [mapSet, hk]
    · have hmem : k ∈ rest.map Prod.fst := by
        rcases List.mem_cons.mp h with h' | h'
        · exact absurd h'.symm hk
        · exact h'
      simp [mapSet, hk, ih hmem]

theorem mapSet_map_fst_of_not_mem (m : SiteMap) (k : String) (v : RawSiteEntry)
    (h : k ∉ m.map Prod.fst) :
    (mapSet m k v).map Prod.fst = m.map Prod.fst ++ [k] := by
  induction m with
  | nil => simp [mapSet]
  | cons p rest ih =>
    obtain ⟨k0, v0⟩ := p
    have hk : k0 ≠ k := by
      intro hk; exact h (by simp [hk])
    have hrest : k ∉ rest.map Prod.fst := fun hmem => h (by simp [hmem])
    simp [mapSet, hk, ih hrest]

theorem dedupeStep_map_fst (m : SiteMap) (e : RawSiteEntry) :
    (dedupeStep m e).map Prod.fst =
      if e.domain ∈ m.map Prod.fst then m.map Prod.fst
      else m.map Prod.fst ++ [e.domain] := by
  cases hg : mapGet m e.domain with
  | none =>
    have hnm : e.domain ∉ m.map Prod.fst := (mapGet_eq_none_iff m e.domain).mp hg
    have hred : dedupeStep m e = mapSet m e.domain e := by
      unfold dedupeStep; rw [hg]
    rw [hred, if_neg hnm, mapSet_map_fst_of_not_mem m e.domain e hnm]
  | some ex =>
    have hm : e.domain ∈ m.map Prod.fst := by
      by_contra hnm
      rw [(mapGet_eq_none_iff m e.domain).mpr hnm] at hg
      exact Option.noConfusion hg
    have hred : dedupeStep m e =
        if e.isSsl && !ex.isSsl then mapSet m e.domain e else m := by
      unfold dedupeStep; rw [hg]
    rw [hred, if_pos hm]
    split
    · exact mapSet_map_fst_of_mem m e.domain e hm
    · rfl

theorem dedupeStep_nodup (m : SiteMap) (e : RawSiteEntry)
    (h : (m.map Prod.fst).Nodup) : ((dedupeStep m e).map Prod.fst).Nodup := by
  rw [dedupeStep_map_fst]
  split
  · exact h
  · next hnm => simp [List.nodup_append, h, hnm]

theorem mem_dedupeStep_map_fst (m : SiteMap) (e : RawSiteEntry) (d : String) :
    d ∈ (dedupeStep m e).map Prod.fst ↔ d ∈ m.map Prod.fst ∨ d = e.domain := by
  rw [dedupeStep_map_fst]
  split
  · next hm =>
    exact ⟨Or.inl, fun h => h.elim id (fun hd => hd ▸ hm)⟩
  · simp

theorem dedupe_foldl_nodup :
    ∀ (es : List RawSiteEntry) (m : SiteMap), (m.map Prod.fst).Nodup →
      ((es.foldl dedupeStep m).map Prod.fst).Nodup := by
  intro es
  induction es with
  | nil => intro m h; exact h
  | cons e es ih =>
    intro m h
    exact ih (dedupeStep m e) (dedupeStep_nodup m e h)

theorem dedupe_foldl_mem :
    ∀ (es : List RawSiteEntry) (m : SiteMap) (d : String),
      d ∈ (es.foldl dedupeStep m).map Prod.fst ↔
        d ∈ m.map Prod.fst ∨ ∃ e ∈ es, e.domain = d := by
  intro es
  induction es with
  | nil => intro m d; simp
  | cons e es ih =>
    intro m d
    rw [List.foldl_cons, ih, mem_dedupeStep_map_fst]
    constructor
    · rintro ((h | h) | ⟨x, hx, hd⟩)
      · exact Or.inl h
      · exact Or.inr ⟨e, by simp, h.symm⟩
      · exact Or.inr ⟨x, by simp [hx], hd⟩
    · rintro (h | ⟨x, hx, hd⟩)
      · exact Or.inl (Or.inl h)
      · rcases List.mem_cons.mp hx with h' | h'
        · exact Or.inl (Or.inr (h' ▸ hd.symm))
        · exact Or.inr ⟨x, h', hd⟩

theorem selfKeyed_mapSet (m : SiteMap) (k : String) (v : RawSiteEntry)
    (h : SelfKeyed m) (hv : v.domain = k) : SelfKeyed (mapSet m k v) := by
  induction m with
  | nil =>
    intro p hp
    simp only [mapSet, List.mem_singleton] at hp
    subst hp; exact hv
  | cons q rest ih =>
    obtain ⟨k0, v0⟩ := q
    have hrest : SelfKeyed rest := fun p hp => h p (by simp [hp])
    by_cases hk : k0 = k
    · intro p hp
      simp only [mapSet, hk, if_pos rfl] at hp
      rcases List.mem_cons.mp hp with h' | h'
      · subst h'; simpa [hk] using hv
      · exact h p (by simp [h'])
    · intro p hp
      simp only [mapSet, if_neg hk] at hp
      rcases List.mem_cons.mp hp with h' | h'
      · subst h'; exact h ⟨k0, v0⟩ (by simp)
      · exact ih hrest p h'

theorem selfKeyed_dedupeStep (m : SiteMap) (e : RawSiteEntry)
    (h : SelfKeyed m) : SelfKeyed (dedupeStep m e) := by
  cases hg : mapGet m e.domain with
  | none =>
    have hred : dedupeStep m e = mapSet m e.domain e := by
      unfold dedupeStep; rw [hg]
    rw [hred]
    exact selfKeyed_mapSet m e.domain e h rfl
  | some ex =>
    have hred : dedupeStep m e =
        if e.isSsl && !ex.isSsl then mapSet m e.domain e else m := by
      unfold dedupeStep; rw [hg]
    rw [hred]
    split
    · exact selfKeyed_mapSet m e.domain e h rfl
    · exact h

theorem selfKeyed_dedupe_foldl :
    ∀ (es : List RawSiteEntry) (m : SiteMap), SelfKeyed m →
      SelfKeyed (es.foldl dedupeStep m) := by
  intro es
  induction es with
  | nil => intro m h; exact h
  | cons e es ih =>
    intro m h
    exact ih (dedupeStep m e) (selfKeyed_dedupeStep m e h)

theorem mapGet_append_of_none (m m2 : SiteMap) (d : String)
    (h : mapGet m d = none) : mapGet (m ++ m2) d = mapGet m2 d := by
  induction m with
  | nil => rfl
  | cons p rest ih =>
    obtain ⟨k, v⟩ := p
    by_cases hk : k = d
    · simp [mapGet, hk] at h
    · simp only [mapGet, hk, if_neg hk, List.cons_append] at h ⊢
      exact ih h

theorem mapSet_of_get_none (m : SiteMap) (k : String) (v : RawSiteEntry)
    (h : mapGet m k = none) : mapSet m k v = m ++ [(k, v)] := by
  induction m with
  | nil => rfl
  | cons p rest ih =>
    obtain ⟨k0, v0⟩ := p
    by_cases hk : k0 = k
    · simp [mapGet, hk] at h
    · simp only [mapGet, if_neg hk] at h
      simp [mapSet, hk, ih h]

theorem dedupe_foldl_fresh :
    ∀ (vs : List RawSiteEntry) (m : SiteMap),
      (∀ v ∈ vs, mapGet m v.domain = none) →
      (vs.map RawSiteEntry.domain).Nodup →
      vs.foldl dedupeStep m = m ++ vs.map (fun e => (e.domain, e)) := by
  intro vs
  induction vs with
  | nil => intro m _ _; simp
  | cons v vs ih =>
    intro m hfresh hnd
    have hv : mapGet m v.domain = none := hfresh v (by simp)
    have hstep : dedupeStep m v = m ++ [(v.domain, v)] := by
      unfold dedupeStep
      rw [hv, mapSet_of_get_none m v.domain v hv]
    rw [List.map_cons] at hnd
    obtain ⟨hdom, hnd'⟩ := List.nodup_cons.mp hnd
    have hfresh' : ∀ x ∈ vs, mapGet (m ++ [(v.domain, v)]) x.domain = none := by
      intro x hx
      rw [mapGet_append_of_none m _ _ (hfresh x (by simp [hx]))]
      have hne : v.domain ≠ x.domain := by
        intro he
        exact hdom (by rw [he]; exact List.mem_map_of_mem _ hx)
      simp [mapGet, hne]
    rw [List.foldl_cons, hstep, ih (m ++ [(v.domain, v)]) hfresh' hnd']
    simp

theorem selfKeyed_pairs_eq (m : SiteMap) (h : SelfKeyed m) :
    (m.map Prod.snd).map (fun e => (e.domain, e)) = m := by
  induction m with
  | nil => rfl
  | cons p rest ih =>
    obtain ⟨k, v⟩ := p
    have hk : v.domain = k := h ⟨k, v⟩ (by simp)
    have hrest : SelfKeyed rest := fun q hq => h q (by simp [hq])
    simp [hk, ih hrest]

theorem selfKeyed_values_domains (m : SiteMap) (h : SelfKeyed m) :
    (m.map Prod.snd).map RawSiteEntry.domain = m.map Prod.fst := by
  induction m with
  | nil => rfl
  | cons p rest ih =>
    obtain ⟨k, v⟩ := p
    have hk : v.domain = k := h ⟨k, v⟩ (by simp)
    have hrest : SelfKeyed rest := fun q hq => h q (by simp [hq])
    simp [hk, ih hrest]

/-! ## Claim C3 (dedup TLS preference) -/

/-- Claim C3: dedup keeps exactly one entry per unique domain (its keys
are exactly the input domains, without duplicates); for two entries
sharing a domain the earlier one is kept unless the later is TLS and
the earlier is not, in which case the later replaces it; hence when
exactly one of the two is TLS, the merged result is that TLS entry in
either presentation order. -/
theorem c3_dedupe_tls_preference :
    (∀ entries : List RawSiteEntry, ((dedupe entries).map Prod.fst).Nodup)
    ∧ (∀ (entries : List RawSiteEntry) (d : String),
        d ∈ (dedupe entries).map Prod.fst ↔ ∃ e ∈ entries, e.domain = d)
    ∧ (∀ e1 e2 : RawSiteEntry, e1.domain = e2.domain →
        dedupe [e1, e2] =
          [(e1.domain, if e2.isSsl && !e1.isSsl then e2 else e1)])
    ∧ (∀ e1 e2 : RawSiteEntry, e1.domain = e2.domain →
        e1.isSsl = true → e2.isSsl = false →
        dedupe [e1, e2] = [(e1.domain, e1)]
        ∧ dedupe [e2, e1] = [(e1.domain, e1)]) := by
  have hpair : ∀ e1 e2 : RawSiteEntry, e1.domain = e2.domain →
      dedupe [e1, e2] =
        [(e1.domain, if e2.isSsl && !e1.isSsl then e2 else e1)] := by
    intro e1 e2 h
    by_cases hc : (e2.isSsl && !e1.isSsl) = true <;>
      simp [dedupe, dedupeStep, mapGet, mapSet, ← h, hc]
  refine ⟨fun entries => dedupe_foldl_nodup entries [] (by simp),
    fun entries d => by simpa using dedupe_foldl_mem entries [] d,
    hpair, fun e1 e2 h h1 h2 => ?_⟩
  constructor
  · rw [hpair e1 e2 h]
    simp [h2]
  · rw [hpair e2 e1 h.symm]
    simp [h1, h2, h]

/-- Witness for C3 at two concrete entries sharing a domain, the first
plain and the second TLS: both orders merge to the TLS entry. -/
theorem c3_dedupe_tls_preference_witness :
    dedupe
      [{ domain := "a.example", configPath := "c2", isEnabled := true,
         port := 443, isSsl := true, sslCertPath := some "/p" },
       { domain := "a.example", configPath := "c1", isEnabled := true,
         port := 80, isSsl := false, sslCertPath := none }] =
      [("a.example",
        { domain := "a.example", configPath := "c2", isEnabled := true,
          port := 443, isSsl := true, sslCertPath := some "/p" })]
    ∧ dedupe
      [{ domain := "a.example", configPath := "c1", isEnabled := true,
         port := 80, isSsl := false, sslCertPath := none },
       { domain := "a.example", configPath := "c2", isEnabled := true,
         port := 443, isSsl := true, sslCertPath := some "/p" }] =
      [("a.example",
        { domain := "a.example", configPath := "c2", isEnabled := true,
          port := 443, isSsl := true, sslCertPath := some "/p" })] :=
  ⟨(c3_dedupe_tls_preference.2.2.2
      { domain := "a.example", configPath := "c2", isEnabled := true,
        port := 443, isSsl := true, sslCertPath := some "/p" }
      { domain := "a.example", configPath := "c1", isEnabled := true,
        port := 80, isSsl := false, sslCertPath := none }
      rfl rfl rfl).1,
   (c3_dedupe_tls_preference.2.2.2
      { domain := "a.example", configPath := "c2", isEnabled := true,
        port := 443, isSsl := true, sslCertPath := some "/p" }
      { domain := "a.example", configPath := "c1", isEnabled := true,
        port := 80, isSsl := false, sslCertPath := none }
      rfl rfl rfl).2⟩

/-! ## Claim C9 (dedup idempotence) -/

/-- Claim C9: re-running dedup on the entries of its own output yields
the same mapping. -/
theorem c9_dedupe_idempotent (entries : List RawSiteEntry) :
    dedupe ((dedupe entries).map Prod.snd) = dedupe entries := by
  have hsk : SelfKeyed (dedupe entries) :=
    selfKeyed_dedupe_foldl entries [] (by intro p hp; simp at hp)
  have hnd : ((dedupe entries).map Prod.fst).Nodup :=
    dedupe_foldl_nodup entries [] (by simp)
  have hvd : ((dedupe entries).map Prod.snd).map RawSiteEntry.domain =
      (dedupe entries).map Prod.fst := selfKeyed_values_domains _ hsk
  have hfresh : ∀ v ∈ (dedupe entries).map Prod.snd, mapGet [] v.domain = none := by
    intro v _; rfl
  have h := dedupe_foldl_fresh ((dedupe entries).map Prod.snd) [] hfresh
    (by rw [hvd]; exact hnd)
  unfold dedupe at h ⊢
  rw [h]
  simpa using selfKeyed_pairs_eq _ hsk

/-! ## Claim C5 (discovery failure isolation) -/

/-- Claim C5: discovery never returns an error (it is a total function
into entry lists); an absent nginx root yields the empty result; the
four layouts contribute independently; a failed listing collapses only
its own layout to zero entries; an unreadable file parses to nothing;
and dropping a failed file from a layout keeps every other file's
contribution. -/
theorem c5_discovery_failure_isolation :
    ∀ fs : FsState,
      (fs.nginxConfExists = false → getNginxSites fs = [])
      ∧ (fs.nginxConfExists = true → getNginxSites fs =
          layoutEnabled fs ++ layoutAvailable fs ++ layoutPleskVhosts fs ++
            layoutPleskConf fs)
      ∧ (fs.enabledLs = Except.error () → layoutEnabled fs = [])
      ∧ (fs.availableLs = Except.error () → layoutAvailable fs = [])
      ∧ (fs.pleskFind = Except.error () → layoutPleskVhosts fs = [])
      ∧ (fs.pleskConfLs = Except.error () → layoutPleskConf fs = [])
      ∧ (∀ (p : String) (en : Bool), readConfig fs p = Except.error () →
          parseConfigFile fs p en = none)
      ∧ (∀ (l₁ : List String) (b : String) (l₂ : List String),
          enabledFileList fs = l₁ ++ b :: l₂ → enabledEntry fs b = none →
          layoutEnabled fs =
            l₁.filterMap (enabledEntry fs) ++ l₂.filterMap (enabledEntry fs)) := by
  intro fs
  refine ⟨fun h => ?_, fun h => ?_, fun h => ?_, fun h => ?_, fun h => ?_,
    fun h => ?_, fun p en h => ?_, fun l₁ b l₂ hlist hb => ?_⟩
  · simp [getNginxSites, h]
  · simp [getNginxSites, h]
  · unfold layoutEnabled enabledFileList
    rw [h]
    rfl
  · unfold layoutAvailable availableFileList
    rw [h]
    rfl
  · unfold layoutPleskVhosts pleskVhostFiles
    rw [h]
    rfl
  · unfold layoutPleskConf pleskConfFiles
    rw [h]
    rfl
  · unfold parseConfigFile
    rw [h]
  · unfold layoutEnabled
    rw [hlist, List.filterMap_append]
    simp [List.filterMap_cons, hb]

/-- Witness for C5: the absent-root state yields nothing; in the mixed
state the three failed layouts yield nothing, the unreadable file
contributes nothing, and the remaining file's contribution survives. -/
theorem c5_discovery_failure_isolation_witness :
    getNginxSites fsAbsent = []
    ∧ layoutAvailable fsMixed = []
    ∧ layoutPleskVhosts fsMixed = []
    ∧ layoutPleskConf fsMixed = []
    ∧ parseConfigFile fsMixed "/etc/nginx/sites-enabled/badfile" true = none
    ∧ layoutEnabled fsMixed =
        List.filterMap (enabledEntry fsMixed) ["site1"] ++
          List.filterMap (enabledEntry fsMixed) [] :=
  ⟨(c5_discovery_failure_isolation fsAbsent).1 rfl,
   (c5_discovery_failure_isolation fsMixed).2.2.2.1 rfl,
   (c5_discovery_failure_isolation fsMixed).2.2.2.2.1 rfl,
   (c5_discovery_failure_isolation fsMixed).2.2.2.2.2.1 rfl,
   (c5_discovery_failure_isolation fsMixed).2.2.2.2.2.2.1
     "/etc/nginx/sites-enabled/badfile" true rfl,
   (c5_discovery_failure_isolation fsMixed).2.2.2.2.2.2.2
     ["site1"] "badfile" [] (by decide) (by decide)⟩
